import Mathlib

/-!
Verification development for the recommenders evaluation engine and the
SAR pyspark wrapper utilities.

The evaluation-engine definitions below are shallow embeddings of the
metric computations described by the specification (the evaluation module
itself is not part of the checked sources; only its unit tests are), while
the splitter definitions are translated directly from
utilities/recommender/sar/sar_pyspark_ml_wrapper.py.

Conventions: python floats are modelled as rationals, with real-valued
formulas (logarithms, square roots) carried out in the reals; tables are
lists of rows; the partitioned (Spark) execution path is modelled by an
explicit partition of the per-user key list, aggregated chunk by chunk
with associative reductions.
-/

namespace Recommenders

/-- Modelled from the spec: a single interaction row of a truth or
prediction table, keyed by user id and item id, carrying a numeric
rating (truth tables) or predicted score (prediction tables). -/
structure Rating where
  user : Nat
  item : Nat
  rating : ℚ
deriving DecidableEq, Repr

/-- Stable descending insertion: walk past rows with a strictly larger
rating and stop in front of the first row whose rating is not larger, so
that ties keep their original relative order. -/
def insertDesc (r : Rating) : List Rating → List Rating
  | [] => [r]
  | x :: xs => if r.rating < x.rating then x :: insertDesc r xs else r :: x :: xs

/-- Modelled from the spec: sort a list of rows by rating, descending,
with a stable tie-break (original row order). -/
def sortDesc : List Rating → List Rating
  | [] => []
  | x :: xs => insertDesc x (sortDesc xs)

/-- The rows of a table belonging to one user. -/
def userRows (t : List Rating) (u : Nat) : List Rating :=
  t.filter (fun r => decide (r.user = u))

/-- The distinct users of a table, in first-appearance order. -/
def tableUsers (t : List Rating) : List Nat :=
  (t.map Rating.user).dedup

/-- The item column of a table (with repetitions). -/
def tableItems (t : List Rating) : List Nat :=
  t.map Rating.item

/-- A truth or prediction table is valid when its (user, item) pairs are
pairwise distinct. -/
def pairwiseUniquePairs (t : List Rating) : Prop :=
  (t.map (fun r => (r.user, r.item))).Nodup

instance (t : List Rating) : Decidable (pairwiseUniquePairs t) := by
  unfold pairwiseUniquePairs; infer_instance

/-- Modelled from the spec: the two relevancy policies of the relevancy
resolver. -/
inductive RelMethod
  | top_k
  | by_threshold
deriving DecidableEq, Repr

/-- Modelled from the spec: ranking-evaluator configuration, with the
cutoff k, the relevancy policy and the (finite) threshold. -/
structure RankCfg where
  k : Nat
  method : RelMethod
  threshold : ℚ
deriving DecidableEq, Repr

/-- Modelled from the spec: the per-user relevancy set of the relevancy
resolver, as an item list.  Policy top_k takes the k truth items with the
highest ratings (stable descending sort); policy by_threshold takes every
truth item whose rating reaches the threshold. -/
def relevantItems (truth : List Rating) (cfg : RankCfg) (u : Nat) : List Nat :=
  match cfg.method with
  | .top_k => ((sortDesc (userRows truth u)).take cfg.k).map Rating.item
  | .by_threshold =>
      ((userRows truth u).filter (fun r => decide (cfg.threshold ≤ r.rating))).map Rating.item

/-- Modelled from the spec: the per-user ranked prediction list, sorted
by predicted score descending (stable) and truncated to k. -/
def rankedPreds (pred : List Rating) (k : Nat) (u : Nat) : List Nat :=
  ((sortDesc (userRows pred u)).take k).map Rating.item

/-- Modelled from the spec: the full (untruncated) ranked prediction
list, used by the unbounded MAP metric. -/
def fullRankedPreds (pred : List Rating) (u : Nat) : List Nat :=
  (sortDesc (userRows pred u)).map Rating.item

/-- The recommended items of a user that hit the relevancy set. -/
def hitItems (truth pred : List Rating) (cfg : RankCfg) (u : Nat) : List Nat :=
  (rankedPreds pred cfg.k u).filter (fun i => decide (i ∈ relevantItems truth cfg u))

/-- Per-user precision at k: number of hits divided by the cutoff k, the
denominator fixed by the calibration test (a user with three truth items
and prediction equal to truth scores 3/5 at k = 5). -/
def userPrecision (truth pred : List Rating) (cfg : RankCfg) (u : Nat) : ℚ :=
  ((hitItems truth pred cfg u).length : ℚ) / (cfg.k : ℚ)

/-- Modelled from the spec: the per-user precision variant whose
denominator is capped at the number of truth items of the user,
min(k, truth-item count); stated only to compare with userPrecision. -/
def userPrecisionCapped (truth pred : List Rating) (cfg : RankCfg) (u : Nat) : ℚ :=
  ((hitItems truth pred cfg u).length : ℚ) / ((min cfg.k (userRows truth u).length : Nat) : ℚ)

/-- Modelled from the spec: per-user recall at k, hits divided by the
size of the relevancy set. -/
def userRecall (truth pred : List Rating) (cfg : RankCfg) (u : Nat) : ℚ :=
  ((hitItems truth pred cfg u).length : ℚ) / ((relevantItems truth cfg u).length : ℚ)

/-- Modelled from the spec: running average-precision scores; at each
position (1-based) holding a relevant item, record (hits so far)/(position). -/
def apScores (rel : List Nat) : List Nat → Nat → Nat → List ℚ
  | [], _, _ => []
  | i :: is, pos, h =>
    if i ∈ rel then ((h + 1 : ℚ) / (pos : ℚ)) :: apScores rel is (pos + 1) (h + 1)
    else apScores rel is (pos + 1) h

/-- Mean of a rational list, zero on the empty list. -/
def meanQ (l : List ℚ) : ℚ := l.sum / (l.length : ℚ)

/-- Modelled from the spec: per-user MAP at k, the mean over relevant
positions of the truncated prediction list of the precision at that
position, zero when no predicted item in the top-k window is relevant. -/
def userMapAtK (truth pred : List Rating) (cfg : RankCfg) (u : Nat) : ℚ :=
  meanQ (apScores (relevantItems truth cfg u) (rankedPreds pred cfg.k u) 1 0)

/-- Modelled from the spec: per-user full MAP, computed over the entire
ranked prediction list, not truncated to k. -/
def userMapFull (truth pred : List Rating) (cfg : RankCfg) (u : Nat) : ℚ :=
  meanQ (apScores (relevantItems truth cfg u) (fullRankedPreds pred u) 1 0)

/-- Modelled from the spec: the standard log2 position discount of DCG at
0-based position j, log2(j + 2). -/
noncomputable def disc (j : Nat) : ℝ := Real.logb 2 (j + 2)

/-- Modelled from the spec: DCG of a prediction list against a relevancy
set with binary gains, accumulated from 0-based position j. -/
noncomputable def dcgFrom (rel : List Nat) : List Nat → Nat → ℝ
  | [], _ => 0
  | i :: is, j => (if i ∈ rel then (disc j)⁻¹ else 0) + dcgFrom rel is (j + 1)

/-- Modelled from the spec: ideal DCG of n front-loaded relevant items,
accumulated from 0-based position j. -/
noncomputable def idcgFrom : Nat → Nat → ℝ
  | 0, _ => 0
  | n + 1, j => (disc j)⁻¹ + idcgFrom n (j + 1)

/-- Modelled from the spec: per-user NDCG at k, DCG over the ranked
predictions divided by the ideal DCG of min(k, relevant count) items. -/
noncomputable def userNdcg (truth pred : List Rating) (cfg : RankCfg) (u : Nat) : ℝ :=
  dcgFrom (relevantItems truth cfg u) (rankedPreds pred cfg.k u) 0 /
    idcgFrom (min cfg.k (relevantItems truth cfg u).length) 0

/-- Modelled from the spec: a user enters the ranking aggregates exactly
when its relevancy set is non-empty. -/
def keepUser (truth : List Rating) (cfg : RankCfg) (u : Nat) : Bool :=
  !(relevantItems truth cfg u).isEmpty

/-- Modelled from the spec: single-machine aggregation, the mean of the
per-user scores over the kept users. -/
def pyAgg {α : Type} [Field α] (users : List Nat) (keep : Nat → Bool) (f : Nat → α) : α :=
  ((users.filter keep).map f).sum / ((users.filter keep).length : α)

/-- Modelled from the spec: partitioned aggregation; every chunk of the
partition reduces to a partial sum and a partial count, the partials are
added associatively, and the final mean is their quotient. -/
def sparkAgg {α : Type} [Field α] (parts : List (List Nat)) (keep : Nat → Bool)
    (f : Nat → α) : α :=
  ((parts.map (fun c => ((c.filter keep).map f).sum)).sum) /
    (((parts.map (fun c => (c.filter keep).length)).sum : Nat) : α)

/-- Single-machine precision at k. -/
def precision_at_k (truth pred : List Rating) (cfg : RankCfg) : ℚ :=
  pyAgg (tableUsers truth) (keepUser truth cfg) (userPrecision truth pred cfg)

/-- Modelled from the spec: the aggregate of the capped-denominator
precision variant, stated only to compare with precision_at_k. -/
def capped_precision_at_k (truth pred : List Rating) (cfg : RankCfg) : ℚ :=
  pyAgg (tableUsers truth) (keepUser truth cfg) (userPrecisionCapped truth pred cfg)

/-- Single-machine recall at k. -/
def recall_at_k (truth pred : List Rating) (cfg : RankCfg) : ℚ :=
  pyAgg (tableUsers truth) (keepUser truth cfg) (userRecall truth pred cfg)

/-- Single-machine NDCG at k. -/
noncomputable def ndcg_at_k (truth pred : List Rating) (cfg : RankCfg) : ℝ :=
  pyAgg (tableUsers truth) (keepUser truth cfg) (userNdcg truth pred cfg)

/-- Single-machine MAP at k. -/
def map_at_k (truth pred : List Rating) (cfg : RankCfg) : ℚ :=
  pyAgg (tableUsers truth) (keepUser truth cfg) (userMapAtK truth pred cfg)

/-- Single-machine full MAP over the untruncated prediction lists. -/
def map (truth pred : List Rating) (cfg : RankCfg) : ℚ :=
  pyAgg (tableUsers truth) (keepUser truth cfg) (userMapFull truth pred cfg)

/-- Partitioned (Spark path) precision at k over a partition of the
truth-user list. -/
def spark_precision_at_k (truth pred : List Rating) (cfg : RankCfg)
    (parts : List (List Nat)) : ℚ :=
  sparkAgg parts (keepUser truth cfg) (userPrecision truth pred cfg)

/-- Partitioned (Spark path) recall at k. -/
def spark_recall_at_k (truth pred : List Rating) (cfg : RankCfg)
    (parts : List (List Nat)) : ℚ :=
  sparkAgg parts (keepUser truth cfg) (userRecall truth pred cfg)

/-- Partitioned (Spark path) NDCG at k. -/
noncomputable def spark_ndcg_at_k (truth pred : List Rating) (cfg : RankCfg)
    (parts : List (List Nat)) : ℝ :=
  sparkAgg parts (keepUser truth cfg) (userNdcg truth pred cfg)

/-- Partitioned (Spark path) MAP at k. -/
def spark_map_at_k (truth pred : List Rating) (cfg : RankCfg)
    (parts : List (List Nat)) : ℚ :=
  sparkAgg parts (keepUser truth cfg) (userMapAtK truth pred cfg)

/-- Partitioned (Spark path) full MAP. -/
def spark_map (truth pred : List Rating) (cfg : RankCfg)
    (parts : List (List Nat)) : ℚ :=
  sparkAgg parts (keepUser truth cfg) (userMapFull truth pred cfg)


/-- Modelled from the spec: inner join of truth and prediction on
(user, item); each matched pair of rows contributes the pair of the truth
rating and the predicted score. -/
def innerJoin (truth pred : List Rating) : List (ℚ × ℚ) :=
  truth.flatMap (fun r =>
    (pred.filter (fun s => decide (s.user = r.user ∧ s.item = r.item))).map
      (fun s => (r.rating, s.rating)))

/-- Modelled from the spec: RMSE over the inner join, the square root of
the mean squared difference. -/
noncomputable def rmse (truth pred : List Rating) : ℝ :=
  Real.sqrt (((((innerJoin truth pred).map (fun p => (p.1 - p.2) ^ 2)).sum
      / ((innerJoin truth pred).length : ℚ) : ℚ) : ℝ))

/-- Residual sum of squares of the joined rows. -/
def ssRes (truth pred : List Rating) : ℚ :=
  ((innerJoin truth pred).map (fun p => (p.1 - p.2) ^ 2)).sum

/-- The truth column of the joined rows. -/
def truthVals (truth pred : List Rating) : List ℚ :=
  (innerJoin truth pred).map Prod.fst

/-- The residual column of the joined rows. -/
def diffVals (truth pred : List Rating) : List ℚ :=
  (innerJoin truth pred).map (fun p => p.1 - p.2)

/-- Total sum of squares of the truth column around its mean. -/
def ssTot (truth pred : List Rating) : ℚ :=
  ((truthVals truth pred).map (fun x => (x - meanQ (truthVals truth pred)) ^ 2)).sum

/-- Modelled from the spec: R-squared over the inner join, 1 - SSres/SStot,
defined as 1 in the degenerate case where SStot = 0 and the predictions
equal the truth exactly (SSres = 0). -/
def rsquared (truth pred : List Rating) : ℚ :=
  if ssTot truth pred = 0 ∧ ssRes truth pred = 0 then 1
  else 1 - ssRes truth pred / ssTot truth pred

/-- Population variance of a rational list, mean squared deviation. -/
def varQ (l : List ℚ) : ℚ := (l.map (fun x => (x - meanQ l) ^ 2)).sum / (l.length : ℚ)

/-- Modelled from the spec: explained variance over the inner join,
1 - Var(truth - pred)/Var(truth), with the same degenerate handling as
rsquared. -/
def exp_var (truth pred : List Rating) : ℚ :=
  if varQ (truthVals truth pred) = 0 ∧ varQ (diffVals truth pred) = 0 then 1
  else 1 - varQ (diffVals truth pred) / varQ (truthVals truth pred)

/-- The item column of an interaction list of (user, item) pairs. -/
def itemsOf (l : List (Nat × Nat)) : List Nat := l.map Prod.snd

/-- How many interaction rows touch an item. -/
def countItem (l : List (Nat × Nat)) (i : Nat) : Nat := (itemsOf l).count i

/-- Modelled from the spec: historical item novelty, minus log2 of the
fraction of historical interactions that touch the item. -/
noncomputable def item_novelty (train : List (Nat × Nat)) (i : Nat) : ℝ :=
  -Real.logb 2 ((countItem train i : ℝ) / (train.length : ℝ))

/-- Modelled from the spec: the per-item novelty table over the distinct
training items. -/
noncomputable def historical_item_novelty (train : List (Nat × Nat)) : List (Nat × ℝ) :=
  (itemsOf train).dedup.map (fun i => (i, item_novelty train i))

/-- Modelled from the spec: aggregate novelty, the mean of the historical
novelty of the recommended item over all recommendation rows. -/
noncomputable def novelty (train reco : List (Nat × Nat)) : ℝ :=
  ((itemsOf reco).map (item_novelty train)).sum / (reco.length : ℝ)

/-- Modelled from the spec: the recommendation-frequency-weighted mean of
the per-item historical novelty values, following the round-trip wording
of the spec; stated to compare with the novelty aggregate. -/
noncomputable def weighted_mean_novelty (train reco : List (Nat × Nat)) : ℝ :=
  (∑ i ∈ (itemsOf reco).toFinset, (countItem reco i : ℝ) * item_novelty train i) /
    (∑ i ∈ (itemsOf reco).toFinset, (countItem reco i : ℝ))

/-- The distinct users with at least one recommendation row. -/
def recoUsers (reco : List (Nat × Nat)) : List Nat := (reco.map Prod.fst).dedup

/-- The recommended items of one user, in row order. -/
def userRecoItems (reco : List (Nat × Nat)) (u : Nat) : List Nat :=
  (reco.filter (fun r => decide (r.1 = u))).map Prod.snd

/-- The distinct users interacting with an item in the training data. -/
def usersWith (train : List (Nat × Nat)) (i : Nat) : List Nat :=
  ((train.filter (fun r => decide (r.2 = i))).map Prod.fst).dedup

/-- Modelled from the spec: co-occurrence count of two items, the number
of users who interacted with both. -/
def coCount (train : List (Nat × Nat)) (i j : Nat) : Nat :=
  ((usersWith train i).filter (fun u => decide (u ∈ usersWith train j))).length

/-- Modelled from the spec: Jaccard co-occurrence similarity,
co-occurrences over the size of the union of the user sets. -/
def simJaccard (train : List (Nat × Nat)) (i j : Nat) : ℚ :=
  (coCount train i j : ℚ)
    / (((usersWith train i).length : ℚ) + ((usersWith train j).length : ℚ)
        - (coCount train i j : ℚ))

/-- The unordered pairs of distinct positions of a list, as ordered pairs. -/
def offDiagPairs : List Nat → List (Nat × Nat)
  | [] => []
  | x :: xs => (xs.map (fun y => (x, y))) ++ offDiagPairs xs

/-- The unordered pairs of distinct recommended items of one user. -/
def userPairs (reco : List (Nat × Nat)) (u : Nat) : List (Nat × Nat) :=
  offDiagPairs (userRecoItems reco u).dedup

/-- Modelled from the spec: per-user intra-list diversity, one minus the
mean pairwise similarity over the unordered pairs of distinct recommended
items of the user. -/
def user_diversity (train reco : List (Nat × Nat)) (u : Nat) : ℚ :=
  1 - ((userPairs reco u).map (fun p => simJaccard train p.1 p.2)).sum
    / ((userPairs reco u).length : ℚ)

/-- The users entering the diversity aggregate: those with at least two
recommendation rows. -/
def includedUsers (reco : List (Nat × Nat)) : List Nat :=
  (recoUsers reco).filter (fun u => decide (2 ≤ (userRecoItems reco u).length))

/-- Modelled from the spec: aggregate diversity, the mean of per-user
diversity over the users with at least two recommendation rows (users
with fewer are excluded; the mean of no users is zero by the division
convention, matching the single-item rule of the spec). -/
def diversity (train reco : List (Nat × Nat)) : ℚ :=
  ((includedUsers reco).map (user_diversity train reco)).sum
    / ((includedUsers reco).length : ℚ)

/-- Modelled from the spec: catalog coverage, the number of distinct
recommended items over the number of distinct training items. -/
def catalog_coverage (train reco : List (Nat × Nat)) : ℚ :=
  ((itemsOf reco).toFinset.card : ℚ) / ((itemsOf train).toFinset.card : ℚ)

/-- Modelled from the spec: distributional coverage, the raw Shannon
entropy in bits of the recommendation-frequency distribution, with no
normalization by the maximum entropy. -/
noncomputable def distributional_coverage (reco : List (Nat × Nat)) : ℝ :=
  -(∑ i ∈ (itemsOf reco).toFinset,
      ((countItem reco i : ℝ) / (reco.length : ℝ))
        * Real.logb 2 ((countItem reco i : ℝ) / (reco.length : ℝ)))

/-- Modelled from the spec: the error taxonomy of the evaluator. -/
inductive EvalError
  | configurationError (msg : String)
  | validationError (msg : String)
  | emptyJoinError (msg : String)
deriving DecidableEq, Repr

/-- Modelled from the spec: a python float argument, finite or not. -/
inductive FloatArg
  | finite (q : ℚ)
  | nan
  | posInf
  | negInf
deriving DecidableEq, Repr

/-- Whether a float argument is finite. -/
def FloatArg.isFinite : FloatArg → Bool
  | .finite _ => true
  | _ => false

/-- The finite value of a float argument, zero otherwise. -/
def FloatArg.val : FloatArg → ℚ
  | .finite q => q
  | _ => 0

/-- Modelled from the spec: raw construction-time configuration of the
ranking evaluator, an integer k and a possibly non-finite threshold. -/
structure RawRankCfg where
  k : ℤ
  method : RelMethod
  threshold : FloatArg
deriving DecidableEq, Repr

/-- Modelled from the spec: a successfully constructed ranking evaluator
owning its validated inputs and configuration. -/
structure RankingEvaluator where
  truth : List Rating
  pred : List Rating
  cfg : RankCfg
deriving DecidableEq, Repr

/-- Whether a table holds two rows with the same (user, item) pair. -/
def hasDupPairs (t : List Rating) : Bool :=
  !decide ((t.map (fun r => (r.user, r.item))).Nodup)

/-- Modelled from the spec: ranking-evaluator construction.
Configuration errors (k below 1, and a non-finite threshold under the
by-threshold policy) are raised eagerly at construction; duplicate
(user, item) pairs in either table are rejected with a validation error;
only then is the evaluator produced. -/
def mkRankingEvaluator (truth pred : List Rating) (cfg : RawRankCfg) :
    Except EvalError RankingEvaluator :=
  if cfg.k < 1 then .error (.configurationError "k must be at least 1")
  else if cfg.method = .by_threshold ∧ cfg.threshold.isFinite = false then
    .error (.configurationError "threshold must be finite")
  else if hasDupPairs truth then
    .error (.validationError "duplicate user-item pairs in truth")
  else if hasDupPairs pred then
    .error (.validationError "duplicate user-item pairs in prediction")
  else .ok ⟨truth, pred, ⟨cfg.k.toNat, cfg.method, cfg.threshold.val⟩⟩

/-- The metric-access operations of a constructed ranking evaluator. -/
inductive RankMetric
  | precision
  | recall
  | ndcg
  | mapAtK
  | mapFull
deriving DecidableEq, Repr

/-- Modelled from the spec: metric access on a constructed evaluator.
Degenerate inputs follow the zero/exclusion rules of the spec, so access
never raises a configuration error. -/
noncomputable def accessMetric (e : RankingEvaluator) (m : RankMetric) :
    Except EvalError ℝ :=
  .ok (match m with
    | .precision => ((precision_at_k e.truth e.pred e.cfg : ℚ) : ℝ)
    | .recall => ((recall_at_k e.truth e.pred e.cfg : ℚ) : ℝ)
    | .ndcg => ndcg_at_k e.truth e.pred e.cfg
    | .mapAtK => ((map_at_k e.truth e.pred e.cfg : ℚ) : ℝ)
    | .mapFull => ((map e.truth e.pred e.cfg : ℚ) : ℝ))

/-- A python argument to the RandomSplitter constructor: a float, a list
of floats, or a value of any other type. -/
inductive PyArg
  | float (r : ℚ)
  | list (l : List ℚ)
  | other
deriving DecidableEq, Repr

/-- Translated from utilities/recommender/sar/sar_pyspark_ml_wrapper.py:
the state a constructed RandomSplitter holds, namely the original ratio
argument (self.ratio, assigned before validation), the multi_split flag,
the possibly normalized ratio list (self._ratio) and the seed. -/
structure RandomSplitter where
  ratio : PyArg
  multi_split : Bool
  ratioNorm : PyArg
  seed : ℤ
deriving DecidableEq, Repr

/-- Constructor outcome of RandomSplitter: a splitter, a ValueError or a
TypeError. -/
inductive SplitterInit
  | ok (s : RandomSplitter)
  | valueError (msg : String)
  | typeError (msg : String)
deriving DecidableEq, Repr

/-- Translated from RandomSplitter.__init__ in
utilities/recommender/sar/sar_pyspark_ml_wrapper.py: a float ratio must
lie strictly between 0 and 1; a list ratio must be entrywise positive and
is rescaled by its sum when the sum differs from 1; any other argument
raises a TypeError. -/
def RandomSplitter.init (ratio : PyArg) (seed : ℤ) : SplitterInit :=
  match ratio with
  | .float r =>
      if r ≤ 0 ∨ 1 ≤ r then .valueError "Split ratio has to be between 0 and 1"
      else .ok ⟨.float r, false, .float r, seed⟩
  | .list l =>
      if l.any (fun x => decide (x ≤ 0)) then
        .valueError "All split ratios in the ratio list should be larger than 0."
      else
        let l2 := if l.sum ≠ 1 then l.map (fun x => x / l.sum) else l
        .ok ⟨.list l, true, .list l2, seed⟩
  | .other => .typeError "Split ratio should be either float or a list of floats."

end Recommenders

namespace Recommenders

theorem sum_map_filter_join {α : Type} [Field α] (keep : Nat → Bool) (f : Nat → α) :
    ∀ parts : List (List Nat),
      (parts.map (fun c => ((c.filter keep).map f).sum)).sum
        = ((parts.flatten.filter keep).map f).sum := by
  intro parts
  induction parts with
  | nil => simp
  | cons p ps ih =>
      simp [List.filter_append, ih]

theorem length_filter_join (keep : Nat → Bool) :
    ∀ parts : List (List Nat),
      (parts.map (fun c => (c.filter keep).length)).sum
        = (parts.flatten.filter keep).length := by
  intro parts
  induction parts with
  | nil => simp
  | cons p ps ih =>
      simp [List.filter_append, ih]

theorem sparkAgg_eq_pyAgg {α : Type} [Field α] (parts : List (List Nat))
    (users : List Nat) (keep : Nat → Bool) (f : Nat → α)
    (h : parts.flatten = users) :
    sparkAgg parts keep f = pyAgg users keep f := by
  subst h
  unfold sparkAgg pyAgg
  rw [sum_map_filter_join, length_filter_join]

end Recommenders


namespace Recommenders

/-- C1: for every pair of valid truth and prediction tables and every k at
least 1, each of the five ranking metrics precision_at_k, recall_at_k,
ndcg_at_k, map_at_k and map computed via the single-machine path and via
the partitioned path (over any partition of the truth-user list) agree
within 1e-4 absolute tolerance; in this embedding the two paths agree
exactly, so the difference is zero. -/
theorem ranking_paths_agree (truth pred : List Rating) (cfg : RankCfg)
    (parts : List (List Nat))
    (_hk : 1 ≤ cfg.k)
    (_hvt : pairwiseUniquePairs truth) (_hvp : pairwiseUniquePairs pred)
    (hparts : parts.flatten = tableUsers truth) :
    |spark_precision_at_k truth pred cfg parts - precision_at_k truth pred cfg| ≤ 1 / 10000 ∧
    |spark_recall_at_k truth pred cfg parts - recall_at_k truth pred cfg| ≤ 1 / 10000 ∧
    |spark_ndcg_at_k truth pred cfg parts - ndcg_at_k truth pred cfg| ≤ 1 / 10000 ∧
    |spark_map_at_k truth pred cfg parts - map_at_k truth pred cfg| ≤ 1 / 10000 ∧
    |spark_map truth pred cfg parts - map truth pred cfg| ≤ 1 / 10000 := by
  refine ⟨?_, ?_, ?_, ?_, ?_⟩
  · rw [show spark_precision_at_k truth pred cfg parts = precision_at_k truth pred cfg from
      sparkAgg_eq_pyAgg parts (tableUsers truth) _ _ hparts, sub_self, abs_zero]
    norm_num
  · rw [show spark_recall_at_k truth pred cfg parts = recall_at_k truth pred cfg from
      sparkAgg_eq_pyAgg parts (tableUsers truth) _ _ hparts, sub_self, abs_zero]
    norm_num
  · rw [show spark_ndcg_at_k truth pred cfg parts = ndcg_at_k truth pred cfg from
      sparkAgg_eq_pyAgg parts (tableUsers truth) _ _ hparts, sub_self, abs_zero]
    norm_num
  · rw [show spark_map_at_k truth pred cfg parts = map_at_k truth pred cfg from
      sparkAgg_eq_pyAgg parts (tableUsers truth) _ _ hparts, sub_self, abs_zero]
    norm_num
  · rw [show spark_map truth pred cfg parts = map truth pred cfg from
      sparkAgg_eq_pyAgg parts (tableUsers truth) _ _ hparts, sub_self, abs_zero]
    norm_num

/-- C1 witness: the cross-path agreement at a concrete pair of two-user
tables, k = 10 and the two-chunk partition of the user list. -/
theorem ranking_paths_agree_witness :
    1 ≤ (⟨10, RelMethod.top_k, 0⟩ : RankCfg).k ∧
    pairwiseUniquePairs ([⟨1, 1, 5⟩, ⟨1, 2, 4⟩, ⟨2, 1, 3⟩] : List Rating) ∧
    pairwiseUniquePairs ([⟨1, 2, 4⟩, ⟨1, 3, 1⟩, ⟨2, 1, 2⟩] : List Rating) ∧
    ([[1], [2]] : List (List Nat)).flatten
      = tableUsers ([⟨1, 1, 5⟩, ⟨1, 2, 4⟩, ⟨2, 1, 3⟩] : List Rating) ∧
    (|spark_precision_at_k ([⟨1, 1, 5⟩, ⟨1, 2, 4⟩, ⟨2, 1, 3⟩] : List Rating)
        ([⟨1, 2, 4⟩, ⟨1, 3, 1⟩, ⟨2, 1, 2⟩] : List Rating) ⟨10, RelMethod.top_k, 0⟩ [[1], [2]]
        - precision_at_k ([⟨1, 1, 5⟩, ⟨1, 2, 4⟩, ⟨2, 1, 3⟩] : List Rating)
            ([⟨1, 2, 4⟩, ⟨1, 3, 1⟩, ⟨2, 1, 2⟩] : List Rating) ⟨10, RelMethod.top_k, 0⟩|
        ≤ 1 / 10000 ∧
      |spark_recall_at_k ([⟨1, 1, 5⟩, ⟨1, 2, 4⟩, ⟨2, 1, 3⟩] : List Rating)
        ([⟨1, 2, 4⟩, ⟨1, 3, 1⟩, ⟨2, 1, 2⟩] : List Rating) ⟨10, RelMethod.top_k, 0⟩ [[1], [2]]
        - recall_at_k ([⟨1, 1, 5⟩, ⟨1, 2, 4⟩, ⟨2, 1, 3⟩] : List Rating)
            ([⟨1, 2, 4⟩, ⟨1, 3, 1⟩, ⟨2, 1, 2⟩] : List Rating) ⟨10, RelMethod.top_k, 0⟩|
        ≤ 1 / 10000 ∧
      |spark_ndcg_at_k ([⟨1, 1, 5⟩, ⟨1, 2, 4⟩, ⟨2, 1, 3⟩] : List Rating)
        ([⟨1, 2, 4⟩, ⟨1, 3, 1⟩, ⟨2, 1, 2⟩] : List Rating) ⟨10, RelMethod.top_k, 0⟩ [[1], [2]]
        - ndcg_at_k ([⟨1, 1, 5⟩, ⟨1, 2, 4⟩, ⟨2, 1, 3⟩] : List Rating)
            ([⟨1, 2, 4⟩, ⟨1, 3, 1⟩, ⟨2, 1, 2⟩] : List Rating) ⟨10, RelMethod.top_k, 0⟩|
        ≤ 1 / 10000 ∧
      |spark_map_at_k ([⟨1, 1, 5⟩, ⟨1, 2, 4⟩, ⟨2, 1, 3⟩] : List Rating)
        ([⟨1, 2, 4⟩, ⟨1, 3, 1⟩, ⟨2, 1, 2⟩] : List Rating) ⟨10, RelMethod.top_k, 0⟩ [[1], [2]]
        - map_at_k ([⟨1, 1, 5⟩, ⟨1, 2, 4⟩, ⟨2, 1, 3⟩] : List Rating)
            ([⟨1, 2, 4⟩, ⟨1, 3, 1⟩, ⟨2, 1, 2⟩] : List Rating) ⟨10, RelMethod.top_k, 0⟩|
        ≤ 1 / 10000 ∧
      |spark_map ([⟨1, 1, 5⟩, ⟨1, 2, 4⟩, ⟨2, 1, 3⟩] : List Rating)
        ([⟨1, 2, 4⟩, ⟨1, 3, 1⟩, ⟨2, 1, 2⟩] : List Rating) ⟨10, RelMethod.top_k, 0⟩ [[1], [2]]
        - map ([⟨1, 1, 5⟩, ⟨1, 2, 4⟩, ⟨2, 1, 3⟩] : List Rating)
            ([⟨1, 2, 4⟩, ⟨1, 3, 1⟩, ⟨2, 1, 2⟩] : List Rating) ⟨10, RelMethod.top_k, 0⟩|
        ≤ 1 / 10000) :=
  ⟨by decide, by decide, by decide, by decide,
    ranking_paths_agree _ _ _ _ (by decide) (by decide) (by decide) (by decide)⟩

end Recommenders

namespace Recommenders

/-- C2 counterexample: on the calibration table of a single user with
three truth items and prediction equal to truth, at k = 5 the evaluator
returns precision 3/5 (the value the repository test asserts), while the
min(k, truth-item-count) denominator demanded by the claim would force
the value 1; the two requirements of the claim contradict each other at
this input. -/
theorem precision_capped_denominator_refuted :
    precision_at_k ([⟨1, 1, 5⟩, ⟨1, 2, 4⟩, ⟨1, 3, 3⟩] : List Rating)
        ([⟨1, 1, 5⟩, ⟨1, 2, 4⟩, ⟨1, 3, 3⟩] : List Rating)
        ⟨5, RelMethod.top_k, 0⟩ = 3 / 5 ∧
    capped_precision_at_k ([⟨1, 1, 5⟩, ⟨1, 2, 4⟩, ⟨1, 3, 3⟩] : List Rating)
        ([⟨1, 1, 5⟩, ⟨1, 2, 4⟩, ⟨1, 3, 3⟩] : List Rating)
        ⟨5, RelMethod.top_k, 0⟩ = 1 ∧
    (3 / 5 : ℚ) ≠ 1 := by
  refine ⟨?_, ?_, by norm_num⟩
  · norm_num [precision_at_k, pyAgg, tableUsers, keepUser, relevantItems, userRows,
      sortDesc, insertDesc, userPrecision, hitItems, rankedPreds,
      List.dedup_cons_of_not_mem, List.dedup_cons_of_mem, List.filter]
  · norm_num [capped_precision_at_k, pyAgg, tableUsers, keepUser, relevantItems, userRows,
      sortDesc, insertDesc, userPrecisionCapped, hitItems, rankedPreds,
      List.dedup_cons_of_not_mem, List.dedup_cons_of_mem, List.filter]

/-- C2 amended: precision_at_k divides the per-user hit count by the
fixed cutoff k, also when k exceeds the truth-item count of the user; in
particular a user with exactly 3 truth items and prediction equal to
truth yields precision 1 at k = 3 and 3/5 = 0.6 at k = 5, and the
two-user calibration table yields 1 at k = 3. -/
theorem precision_at_k_fixed_denominator :
    (∀ (truth pred : List Rating) (cfg : RankCfg) (u : Nat),
        userPrecision truth pred cfg u
          = ((hitItems truth pred cfg u).length : ℚ) / (cfg.k : ℚ)) ∧
    precision_at_k ([⟨1, 1, 5⟩, ⟨1, 2, 4⟩, ⟨1, 3, 3⟩] : List Rating)
        ([⟨1, 1, 5⟩, ⟨1, 2, 4⟩, ⟨1, 3, 3⟩] : List Rating)
        ⟨3, RelMethod.top_k, 0⟩ = 1 ∧
    precision_at_k ([⟨1, 1, 5⟩, ⟨1, 2, 4⟩, ⟨1, 3, 3⟩] : List Rating)
        ([⟨1, 1, 5⟩, ⟨1, 2, 4⟩, ⟨1, 3, 3⟩] : List Rating)
        ⟨5, RelMethod.top_k, 0⟩ = 3 / 5 ∧
    precision_at_k
        ([⟨1, 1, 5⟩, ⟨1, 2, 4⟩, ⟨1, 3, 3⟩, ⟨2, 1, 5⟩, ⟨2, 2, 5⟩, ⟨2, 3, 3⟩] : List Rating)
        ([⟨1, 1, 5⟩, ⟨1, 2, 4⟩, ⟨1, 3, 3⟩, ⟨2, 1, 5⟩, ⟨2, 2, 5⟩, ⟨2, 3, 3⟩] : List Rating)
        ⟨3, RelMethod.top_k, 0⟩ = 1 := by
  refine ⟨fun truth pred cfg u => rfl, ?_, ?_, ?_⟩ <;>
    norm_num [precision_at_k, pyAgg, tableUsers, keepUser, relevantItems, userRows,
      sortDesc, insertDesc, userPrecision, hitItems, rankedPreds,
      List.dedup_cons_of_not_mem, List.dedup_cons_of_mem, List.filter]

end Recommenders

namespace Recommenders

theorem insertDesc_perm (r : Rating) (l : List Rating) :
    (insertDesc r l).Perm (r :: l) := by
  induction l with
  | nil => simp [insertDesc]
  | cons x xs ih =>
      by_cases h : r.rating < x.rating
      · simp only [insertDesc, if_pos h]
        exact (ih.cons x).trans (List.Perm.swap r x xs)
      · simp [insertDesc, if_neg h]

theorem sortDesc_perm (l : List Rating) : (sortDesc l).Perm l := by
  induction l with
  | nil => simp [sortDesc]
  | cons x xs ih =>
      exact (insertDesc_perm x (sortDesc xs)).trans (ih.cons x)

theorem length_sortDesc (l : List Rating) : (sortDesc l).length = l.length :=
  (sortDesc_perm l).length_eq

theorem mem_sortDesc {r : Rating} {l : List Rating} : r ∈ sortDesc l ↔ r ∈ l :=
  (sortDesc_perm l).mem_iff

theorem sortDesc_eq_nil_iff {l : List Rating} : sortDesc l = [] ↔ l = [] := by
  constructor
  · intro h
    have := length_sortDesc l
    rw [h] at this
    exact List.length_eq_zero.1 this.symm
  · rintro rfl; rfl

theorem take_sortDesc_of_le (l : List Rating) (k : Nat) (h : l.length ≤ k) :
    (sortDesc l).take k = sortDesc l := by
  apply List.take_of_length_le
  rw [length_sortDesc]
  exact h

theorem mem_userRows {t : List Rating} {u : Nat} {r : Rating} :
    r ∈ userRows t u ↔ r ∈ t ∧ r.user = u := by
  simp [userRows, List.mem_filter]

theorem userRows_user {t : List Rating} {u : Nat} {r : Rating}
    (h : r ∈ userRows t u) : r.user = u :=
  (mem_userRows.1 h).2

theorem userRows_subset {t : List Rating} {u : Nat} {r : Rating}
    (h : r ∈ userRows t u) : r ∈ t :=
  (mem_userRows.1 h).1

theorem userRows_pairs_nodup (t : List Rating) (u : Nat) (h : pairwiseUniquePairs t) :
    ((userRows t u).map (fun r => (r.user, r.item))).Nodup :=
  h.sublist ((List.filter_sublist t).map _)

theorem userRows_items_nodup (t : List Rating) (u : Nat) (h : pairwiseUniquePairs t) :
    ((userRows t u).map Rating.item).Nodup := by
  have hnd := userRows_pairs_nodup t u h
  have hrw : ((userRows t u).map Rating.item)
      = (((userRows t u).map (fun r => (r.user, r.item))).map Prod.snd) := by
    simp [List.map_map]
  rw [hrw]
  refine List.Nodup.map_on ?_ hnd
  intro x hx y hy hxy
  obtain ⟨rx, hrx, rfl⟩ := List.mem_map.1 hx
  obtain ⟨ry, hry, rfl⟩ := List.mem_map.1 hy
  have hux : rx.user = u := userRows_user hrx
  have huy : ry.user = u := userRows_user hry
  simp only at hxy
  simp [hux, huy, hxy]

theorem userRows_length_le_catalog (t : List Rating) (u : Nat)
    (h : pairwiseUniquePairs t) :
    (userRows t u).length ≤ (tableItems t).toFinset.card := by
  have hnd := userRows_items_nodup t u h
  have hlen : ((userRows t u).map Rating.item).toFinset.card = (userRows t u).length := by
    rw [List.toFinset_card_of_nodup hnd, List.length_map]
  rw [← hlen]
  apply Finset.card_le_card
  intro i hi
  rw [List.mem_toFinset] at hi ⊢
  obtain ⟨r, hr, rfl⟩ := List.mem_map.1 hi
  exact List.mem_map.2 ⟨r, userRows_subset hr, rfl⟩

theorem mem_tableUsers_iff {t : List Rating} {u : Nat} :
    u ∈ tableUsers t ↔ ∃ r ∈ t, r.user = u := by
  simp [tableUsers, List.mem_dedup, List.mem_map]

theorem userRows_ne_nil {t : List Rating} {u : Nat} (hu : u ∈ tableUsers t) :
    userRows t u ≠ [] := by
  obtain ⟨r, hr, hru⟩ := mem_tableUsers_iff.1 hu
  intro hnil
  have : r ∈ userRows t u := mem_userRows.2 ⟨hr, hru⟩
  rw [hnil] at this
  cases this

theorem tableUsers_ne_nil {t : List Rating} (h : t ≠ []) : tableUsers t ≠ [] := by
  intro hnil
  apply h
  have : t.map Rating.user = [] := (List.dedup_eq_nil _).1 hnil
  exact List.map_eq_nil_iff.1 this

end Recommenders

namespace Recommenders

theorem disc_pos (j : Nat) : 0 < disc j := by
  apply Real.logb_pos (by norm_num)
  have h0 : (0 : ℝ) ≤ (j : ℝ) := Nat.cast_nonneg j
  linarith

theorem idcgFrom_nonneg : ∀ (n j : Nat), 0 ≤ idcgFrom n j
  | 0, _ => by simp [idcgFrom]
  | n + 1, j => by
      have h1 : 0 ≤ (disc j)⁻¹ := inv_nonneg.2 (disc_pos j).le
      have h2 := idcgFrom_nonneg n (j + 1)
      simp only [idcgFrom]
      linarith

theorem idcgFrom_pos (n j : Nat) : 0 < idcgFrom (n + 1) j := by
  have h1 : 0 < (disc j)⁻¹ := inv_pos.2 (disc_pos j)
  have h2 := idcgFrom_nonneg n (j + 1)
  simp only [idcgFrom]
  linarith

theorem dcgFrom_all_mem (rel : List Nat) :
    ∀ (l : List Nat) (j : Nat), (∀ i ∈ l, i ∈ rel) →
      dcgFrom rel l j = idcgFrom l.length j := by
  intro l
  induction l with
  | nil => intro j _; simp [dcgFrom, idcgFrom]
  | cons i is ih =>
      intro j hall
      have hi : i ∈ rel := hall i (List.mem_cons_self i is)
      simp only [dcgFrom, idcgFrom, List.length_cons, if_pos hi]
      rw [ih (j + 1) (fun x hx => hall x (List.mem_cons_of_mem i hx))]

theorem apScores_all_mem (rel : List Nat) :
    ∀ (l : List Nat) (pos : Nat), (∀ i ∈ l, i ∈ rel) →
      apScores rel l (pos + 1) pos = List.replicate l.length 1 := by
  intro l
  induction l with
  | nil => intro pos _; simp [apScores]
  | cons i is ih =>
      intro pos hall
      have hi : i ∈ rel := hall i (List.mem_cons_self i is)
      simp only [apScores, if_pos hi, List.length_cons]
      rw [ih (pos + 1) (fun x hx => hall x (List.mem_cons_of_mem i hx)),
        List.replicate_succ]
      congr 1
      push_cast
      apply div_self
      positivity

theorem meanQ_replicate_one (n : Nat) (hn : n ≠ 0) :
    meanQ (List.replicate n 1) = 1 := by
  have hsum : (List.replicate n (1 : ℚ)).sum = (n : ℚ) := by
    rw [List.sum_replicate, nsmul_eq_mul, mul_one]
  rw [meanQ, hsum, List.length_replicate]
  apply div_self
  exact_mod_cast hn

theorem pyAgg_all_one {α : Type} [Field α] [CharZero α] (users : List Nat)
    (keep : Nat → Bool) (f : Nat → α)
    (hkeep : ∀ u ∈ users, keep u = true)
    (hone : ∀ u ∈ users, f u = 1)
    (hne : users ≠ []) :
    pyAgg users keep f = 1 := by
  have hfilter : users.filter keep = users := List.filter_eq_self.2 hkeep
  have hmap : users.map f = List.replicate (users.map f).length 1 := by
    apply List.eq_replicate_of_mem
    intro b hb
    obtain ⟨u, hu, rfl⟩ := List.mem_map.1 hb
    exact hone u hu
  have hsum : (users.map f).sum = (users.length : α) := by
    rw [hmap, List.sum_replicate, nsmul_eq_mul, mul_one, List.length_map]
  unfold pyAgg
  rw [hfilter, hsum]
  apply div_self
  have : users.length ≠ 0 := fun hc => hne (List.length_eq_zero.1 hc)
  exact_mod_cast this

end Recommenders

namespace Recommenders

theorem filter_pair_eq_singleton (t : List Rating) :
    pairwiseUniquePairs t → ∀ r ∈ t,
      t.filter (fun s => decide (s.user = r.user ∧ s.item = r.item)) = [r] := by
  induction t with
  | nil => intro _ r hr; cases hr
  | cons a as ih =>
      intro h r hr
      have hmap : ((a :: as).map (fun s => (s.user, s.item))).Nodup := h
      rw [List.map_cons, List.nodup_cons] at hmap
      obtain ⟨hnotmem, htail⟩ := hmap
      rcases List.mem_cons.1 hr with h1 | hr2
      · rw [h1]
        simp only [List.filter_cons]
        have ha : decide (True ∧ True) = true := by simp
        rw [if_pos ha]
        have hnil : as.filter (fun s => decide (s.user = a.user ∧ s.item = a.item)) = [] := by
          rw [List.filter_eq_nil_iff]
          intro s hs hdec
          apply hnotmem
          have hsp : s.user = a.user ∧ s.item = a.item := by simpa using hdec
          have hpair : (s.user, s.item) = (a.user, a.item) := by rw [hsp.1, hsp.2]
          rw [← hpair]
          exact List.mem_map.2 ⟨s, hs, rfl⟩
        rw [hnil]
      · simp only [List.filter_cons]
        have ha : ¬(a.user = r.user ∧ a.item = r.item) := by
          intro hc
          apply hnotmem
          have hpair : (a.user, a.item) = (r.user, r.item) := by rw [hc.1, hc.2]
          rw [hpair]
          exact List.mem_map.2 ⟨r, hr2, rfl⟩
        rw [if_neg (by simpa using ha)]
        exact ih htail r hr2

theorem flatMap_eq_map_of_singleton {α β : Type} (f : α → List β) (g : α → β)
    (l : List α) (h : ∀ r ∈ l, f r = [g r]) : l.flatMap f = l.map g := by
  induction l with
  | nil => rfl
  | cons a as ih =>
      rw [List.flatMap_cons, List.map_cons, h a (List.mem_cons_self a as),
        ih (fun r hr => h r (List.mem_cons_of_mem a hr))]
      rfl

theorem innerJoin_self (t : List Rating) (h : pairwiseUniquePairs t) :
    innerJoin t t = t.map (fun r => (r.rating, r.rating)) := by
  unfold innerJoin
  apply flatMap_eq_map_of_singleton
  intro r hr
  rw [filter_pair_eq_singleton t h r hr]
  rfl

theorem ssRes_self (t : List Rating) (h : pairwiseUniquePairs t) : ssRes t t = 0 := by
  unfold ssRes
  rw [innerJoin_self t h, List.map_map]
  apply List.sum_eq_zero
  intro x hx
  obtain ⟨r, hr, rfl⟩ := List.mem_map.1 hx
  simp

theorem diffVals_self_zero (t : List Rating) (h : pairwiseUniquePairs t) :
    ∀ x ∈ diffVals t t, x = 0 := by
  unfold diffVals
  rw [innerJoin_self t h, List.map_map]
  intro x hx
  obtain ⟨r, hr, rfl⟩ := List.mem_map.1 hx
  simp

theorem varQ_of_all_zero (l : List ℚ) (h : ∀ x ∈ l, x = 0) : varQ l = 0 := by
  have hsum : l.sum = 0 := List.sum_eq_zero h
  have hmean : meanQ l = 0 := by rw [meanQ, hsum, zero_div]
  unfold varQ
  rw [hmean]
  have hz : (l.map fun x => (x - 0) ^ 2).sum = 0 := by
    apply List.sum_eq_zero
    intro y hy
    obtain ⟨x, hx, rfl⟩ := List.mem_map.1 hy
    rw [h x hx]
    norm_num
  rw [hz, zero_div]

theorem rmse_self (t : List Rating) (h : pairwiseUniquePairs t) : rmse t t = 0 := by
  unfold rmse
  rw [innerJoin_self t h, List.map_map]
  have hsum : (t.map ((fun p : ℚ × ℚ => (p.1 - p.2) ^ 2) ∘ fun r => (r.rating, r.rating))).sum
      = 0 := by
    apply List.sum_eq_zero
    intro x hx
    obtain ⟨r, hr, rfl⟩ := List.mem_map.1 hx
    simp
  rw [hsum, zero_div]
  simp

theorem rsquared_self (t : List Rating) (h : pairwiseUniquePairs t) : rsquared t t = 1 := by
  unfold rsquared
  by_cases htot : ssTot t t = 0
  · rw [if_pos ⟨htot, ssRes_self t h⟩]
  · rw [if_neg (fun hc => htot hc.1), ssRes_self t h, zero_div, sub_zero]

theorem exp_var_self (t : List Rating) (h : pairwiseUniquePairs t) : exp_var t t = 1 := by
  have hd : varQ (diffVals t t) = 0 := varQ_of_all_zero _ (diffVals_self_zero t h)
  unfold exp_var
  by_cases htv : varQ (truthVals t t) = 0
  · rw [if_pos ⟨htv, hd⟩]
  · rw [if_neg (fun hc => htv hc.1), hd, zero_div, sub_zero]

end Recommenders

namespace Recommenders

theorem identity_relevant_eq (t : List Rating) (cfg : RankCfg) (u : Nat)
    (hm : cfg.method = RelMethod.top_k)
    (hlen : (userRows t u).length ≤ cfg.k) :
    relevantItems t cfg u = (sortDesc (userRows t u)).map Rating.item := by
  obtain ⟨k, m, th⟩ := cfg
  dsimp only at hm hlen
  subst hm
  simp only [relevantItems]
  rw [take_sortDesc_of_le _ _ hlen]

theorem identity_user_metrics (t : List Rating) (cfg : RankCfg) (u : Nat)
    (huniq : pairwiseUniquePairs t)
    (hm : cfg.method = RelMethod.top_k)
    (hk : (tableItems t).toFinset.card ≤ cfg.k)
    (hu : u ∈ tableUsers t) :
    relevantItems t cfg u ≠ [] ∧
    userNdcg t t cfg u = 1 ∧ userMapAtK t t cfg u = 1 ∧ userMapFull t t cfg u = 1 := by
  have hlen : (userRows t u).length ≤ cfg.k :=
    le_trans (userRows_length_le_catalog t u huniq) hk
  have hrel : relevantItems t cfg u = (sortDesc (userRows t u)).map Rating.item :=
    identity_relevant_eq t cfg u hm hlen
  have hrank : rankedPreds t cfg.k u = (sortDesc (userRows t u)).map Rating.item := by
    rw [rankedPreds, take_sortDesc_of_le _ _ hlen]
  have hfull : fullRankedPreds t u = (sortDesc (userRows t u)).map Rating.item := rfl
  have hLne : (sortDesc (userRows t u)).map Rating.item ≠ [] := by
    intro hc
    apply userRows_ne_nil hu
    exact sortDesc_eq_nil_iff.1 (List.map_eq_nil_iff.1 hc)
  obtain ⟨n, hn⟩ : ∃ n, ((sortDesc (userRows t u)).map Rating.item).length = n + 1 := by
    cases hL2 : (sortDesc (userRows t u)).map Rating.item with
    | nil => exact absurd hL2 hLne
    | cons a l => exact ⟨l.length, rfl⟩
  refine ⟨by rw [hrel]; exact hLne, ?_, ?_, ?_⟩
  · rw [userNdcg, hrel, hrank]
    have hmin : min cfg.k ((sortDesc (userRows t u)).map Rating.item).length
        = ((sortDesc (userRows t u)).map Rating.item).length := by
      apply min_eq_right
      rw [List.length_map, length_sortDesc]
      exact hlen
    rw [hmin, dcgFrom_all_mem _ _ 0 (fun i hi => hi), hn]
    exact div_self (ne_of_gt (idcgFrom_pos n 0))
  · rw [userMapAtK, hrel, hrank,
      apScores_all_mem _ _ 0 (fun i hi => hi), hn]
    exact meanQ_replicate_one (n + 1) (Nat.succ_ne_zero n)
  · rw [userMapFull, hrel, hfull,
      apScores_all_mem _ _ 0 (fun i hi => hi), hn]
    exact meanQ_replicate_one (n + 1) (Nat.succ_ne_zero n)

end Recommenders

namespace Recommenders

/-- C3: identity case; when the prediction table equals the truth table
(truth ratings used as prediction scores), the table is valid and
non-empty, the policy is top-k and k is at least the catalog size, the
evaluator returns RMSE 0, NDCG at k 1, full MAP 1, MAP at k 1, R-squared
within 1e-4 of 1 (exactly 1 here) and explained variance within 1e-4 of 1
(exactly 1 here). -/
theorem identity_case (truth : List Rating) (cfg : RankCfg)
    (hne : truth ≠ [])
    (huniq : pairwiseUniquePairs truth)
    (hm : cfg.method = RelMethod.top_k)
    (hk : (tableItems truth).toFinset.card ≤ cfg.k) :
    rmse truth truth = 0 ∧
    ndcg_at_k truth truth cfg = 1 ∧
    map truth truth cfg = 1 ∧
    map_at_k truth truth cfg = 1 ∧
    |rsquared truth truth - 1| ≤ 1 / 10000 ∧
    |exp_var truth truth - 1| ≤ 1 / 10000 := by
  have husers : tableUsers truth ≠ [] := tableUsers_ne_nil hne
  have hkeep : ∀ u ∈ tableUsers truth, keepUser truth cfg u = true := by
    intro u hu
    have h1 := (identity_user_metrics truth cfg u huniq hm hk hu).1
    simp [keepUser, List.isEmpty_iff, h1]
  refine ⟨rmse_self truth huniq, ?_, ?_, ?_, ?_, ?_⟩
  · exact pyAgg_all_one _ _ _ hkeep
      (fun u hu => (identity_user_metrics truth cfg u huniq hm hk hu).2.1) husers
  · exact pyAgg_all_one _ _ _ hkeep
      (fun u hu => (identity_user_metrics truth cfg u huniq hm hk hu).2.2.2) husers
  · exact pyAgg_all_one _ _ _ hkeep
      (fun u hu => (identity_user_metrics truth cfg u huniq hm hk hu).2.2.1) husers
  · rw [rsquared_self truth huniq, sub_self, abs_zero]
    norm_num
  · rw [exp_var_self truth huniq, sub_self, abs_zero]
    norm_num

/-- C3 witness: the identity case evaluated at a concrete three-row
single-user table with k = 10. -/
theorem identity_case_witness :
    (([⟨1, 1, 5⟩, ⟨1, 2, 4⟩, ⟨1, 3, 3⟩] : List Rating) ≠ []) ∧
    pairwiseUniquePairs ([⟨1, 1, 5⟩, ⟨1, 2, 4⟩, ⟨1, 3, 3⟩] : List Rating) ∧
    (⟨10, RelMethod.top_k, 0⟩ : RankCfg).method = RelMethod.top_k ∧
    (tableItems ([⟨1, 1, 5⟩, ⟨1, 2, 4⟩, ⟨1, 3, 3⟩] : List Rating)).toFinset.card
      ≤ (⟨10, RelMethod.top_k, 0⟩ : RankCfg).k ∧
    (rmse ([⟨1, 1, 5⟩, ⟨1, 2, 4⟩, ⟨1, 3, 3⟩] : List Rating)
        ([⟨1, 1, 5⟩, ⟨1, 2, 4⟩, ⟨1, 3, 3⟩] : List Rating) = 0 ∧
      ndcg_at_k ([⟨1, 1, 5⟩, ⟨1, 2, 4⟩, ⟨1, 3, 3⟩] : List Rating)
        ([⟨1, 1, 5⟩, ⟨1, 2, 4⟩, ⟨1, 3, 3⟩] : List Rating) ⟨10, RelMethod.top_k, 0⟩ = 1 ∧
      map ([⟨1, 1, 5⟩, ⟨1, 2, 4⟩, ⟨1, 3, 3⟩] : List Rating)
        ([⟨1, 1, 5⟩, ⟨1, 2, 4⟩, ⟨1, 3, 3⟩] : List Rating) ⟨10, RelMethod.top_k, 0⟩ = 1 ∧
      map_at_k ([⟨1, 1, 5⟩, ⟨1, 2, 4⟩, ⟨1, 3, 3⟩] : List Rating)
        ([⟨1, 1, 5⟩, ⟨1, 2, 4⟩, ⟨1, 3, 3⟩] : List Rating) ⟨10, RelMethod.top_k, 0⟩ = 1 ∧
      |rsquared ([⟨1, 1, 5⟩, ⟨1, 2, 4⟩, ⟨1, 3, 3⟩] : List Rating)
        ([⟨1, 1, 5⟩, ⟨1, 2, 4⟩, ⟨1, 3, 3⟩] : List Rating) - 1| ≤ 1 / 10000 ∧
      |exp_var ([⟨1, 1, 5⟩, ⟨1, 2, 4⟩, ⟨1, 3, 3⟩] : List Rating)
        ([⟨1, 1, 5⟩, ⟨1, 2, 4⟩, ⟨1, 3, 3⟩] : List Rating) - 1| ≤ 1 / 10000) :=
  ⟨by decide, by decide, rfl, by decide,
    identity_case _ _ (by decide) (by decide) rfl (by decide)⟩

end Recommenders

namespace Recommenders

/-- C6: the recommendation-frequency-weighted mean of the per-item
historical novelty values equals the scalar returned by the novelty
aggregate, for every pair of training and recommendation tables. -/
theorem novelty_round_trip (train reco : List (Nat × Nat)) :
    weighted_mean_novelty train reco = novelty train reco := by
  unfold weighted_mean_novelty novelty
  have hnum : (∑ i ∈ (itemsOf reco).toFinset, (countItem reco i : ℝ) * item_novelty train i)
      = ((itemsOf reco).map (item_novelty train)).sum := by
    rw [Finset.sum_list_map_count]
    apply Finset.sum_congr rfl
    intro i _
    rw [countItem, nsmul_eq_mul]
  have hden : (∑ i ∈ (itemsOf reco).toFinset, (countItem reco i : ℝ)) = (reco.length : ℝ) := by
    simp only [countItem]
    rw [← Nat.cast_sum, List.sum_toFinset_count_eq_length, itemsOf, List.length_map]
  rw [hnum, hden]

theorem countItem_pos {l : List (Nat × Nat)} {i : Nat} (h : i ∈ itemsOf l) :
    0 < countItem l i := by
  rw [countItem]
  exact List.count_pos_iff.2 h

theorem countItem_le_length (l : List (Nat × Nat)) (i : Nat) :
    countItem l i ≤ l.length := by
  rw [countItem]
  have h := List.count_le_length (a := i) (l := itemsOf l)
  rwa [itemsOf, List.length_map] at h

theorem countItem_eq_length_iff {l : List (Nat × Nat)} {i : Nat} :
    countItem l i = l.length ↔ ∀ b ∈ itemsOf l, i = b := by
  rw [countItem, show l.length = (itemsOf l).length from (List.length_map _ _).symm]
  exact List.count_eq_length

theorem length_pos_of_mem_items {l : List (Nat × Nat)} {i : Nat} (h : i ∈ itemsOf l) :
    0 < l.length := by
  have hne : itemsOf l ≠ [] := fun hc => by rw [hc] at h; cases h
  have h2 : 0 < (itemsOf l).length := List.length_pos.2 hne
  rwa [itemsOf, List.length_map] at h2

theorem ratio_mem_pos_le_one {l : List (Nat × Nat)} {i : Nat} (h : i ∈ itemsOf l) :
    0 < (countItem l i : ℝ) / (l.length : ℝ) ∧ (countItem l i : ℝ) / (l.length : ℝ) ≤ 1 := by
  have hlen := length_pos_of_mem_items h
  have hlenR : (0 : ℝ) < (l.length : ℝ) := by exact_mod_cast hlen
  constructor
  · apply div_pos _ hlenR
    exact_mod_cast countItem_pos h
  · rw [div_le_one hlenR]
    exact_mod_cast countItem_le_length l i

theorem ratio_eq_one_iff {l : List (Nat × Nat)} {i : Nat} (h : i ∈ itemsOf l) :
    (countItem l i : ℝ) / (l.length : ℝ) = 1 ↔ ∀ b ∈ itemsOf l, i = b := by
  have hlen := length_pos_of_mem_items h
  have hlenR : ((l.length : ℝ)) ≠ 0 := by
    have : (0 : ℝ) < (l.length : ℝ) := by exact_mod_cast hlen
    exact ne_of_gt this
  rw [div_eq_one_iff_eq hlenR]
  rw [show ((countItem l i : ℝ) = (l.length : ℝ)) ↔ countItem l i = l.length from
    Nat.cast_inj]
  exact countItem_eq_length_iff

end Recommenders

namespace Recommenders

/-- C4: every item of the historical item novelty table has a
nonnegative novelty value, and the value is zero exactly when the
filtered training data contains a single distinct item. -/
theorem historical_item_novelty_nonneg (train : List (Nat × Nat)) (i : Nat)
    (hi : i ∈ (itemsOf train).dedup) :
    (i, item_novelty train i) ∈ historical_item_novelty train ∧
    0 ≤ item_novelty train i ∧
    (item_novelty train i = 0 ↔ (itemsOf train).toFinset = {i}) := by
  have hmem : i ∈ itemsOf train := List.mem_dedup.1 hi
  obtain ⟨hppos, hple⟩ := ratio_mem_pos_le_one hmem
  refine ⟨List.mem_map.2 ⟨i, hi, rfl⟩, ?_, ?_⟩
  · unfold item_novelty
    have hnp := Real.logb_nonpos (b := 2) (by norm_num) hppos.le hple
    linarith
  · unfold item_novelty
    constructor
    · intro h0
      have hlog : Real.logb 2 ((countItem train i : ℝ) / (train.length : ℝ)) = 0 := by
        linarith
      have hp1 := Real.eq_one_of_pos_of_logb_eq_zero (b := 2) (by norm_num) hppos hlog
      have hall := (ratio_eq_one_iff hmem).1 hp1
      apply Finset.eq_singleton_iff_unique_mem.2
      exact ⟨List.mem_toFinset.2 hmem, fun j hj => (hall j (List.mem_toFinset.1 hj)).symm⟩
    · intro hset
      have hall : ∀ b ∈ itemsOf train, i = b := by
        intro b hb
        have hbmem : b ∈ (itemsOf train).toFinset := List.mem_toFinset.2 hb
        rw [hset] at hbmem
        exact (Finset.mem_singleton.1 hbmem).symm
      have hp1 := (ratio_eq_one_iff hmem).2 hall
      rw [hp1, Real.logb_one, neg_zero]

/-- C4 witness: the novelty facts at a two-row training table whose only
item is 3. -/
theorem historical_item_novelty_nonneg_witness :
    3 ∈ (itemsOf ([(1, 3), (2, 3)] : List (Nat × Nat))).dedup ∧
    ((3, item_novelty ([(1, 3), (2, 3)] : List (Nat × Nat)) 3)
        ∈ historical_item_novelty ([(1, 3), (2, 3)] : List (Nat × Nat)) ∧
      0 ≤ item_novelty ([(1, 3), (2, 3)] : List (Nat × Nat)) 3 ∧
      (item_novelty ([(1, 3), (2, 3)] : List (Nat × Nat)) 3 = 0 ↔
        (itemsOf ([(1, 3), (2, 3)] : List (Nat × Nat))).toFinset = {3})) :=
  ⟨by decide, historical_item_novelty_nonneg _ _ (by decide)⟩

theorem length_le_one_of_nodup_const {α : Type} (l : List α) (a : α)
    (hnd : l.Nodup) (h : ∀ x ∈ l, x = a) : l.length ≤ 1 := by
  cases l with
  | nil => simp
  | cons x xs =>
      cases xs with
      | nil => simp
      | cons y ys =>
          exfalso
          rw [List.nodup_cons] at hnd
          apply hnd.1
          have hx : x = a := h x (by simp)
          have hy : y = a := h y (by simp)
          rw [hx, ← hy]
          simp

theorem item_novelty_single (train : List (Nat × Nat)) (c : Nat)
    (htne : train ≠ []) (htc : ∀ r ∈ train, r.2 = c) :
    item_novelty train c = 0 := by
  unfold item_novelty
  have hallc : ∀ b ∈ itemsOf train, c = b := by
    intro b hb
    obtain ⟨s, hs, rfl⟩ := List.mem_map.1 hb
    exact (htc s hs).symm
  have hcmem : c ∈ itemsOf train := by
    obtain ⟨s, hs⟩ := List.exists_mem_of_ne_nil train htne
    exact List.mem_map.2 ⟨s, hs, htc s hs⟩
  have hp1 := (ratio_eq_one_iff hcmem).2 hallc
  rw [hp1, Real.logb_one, neg_zero]

/-- C5: when the training interactions and the recommendations are both
restricted to a single distinct item c, the aggregate novelty and the
aggregate diversity both evaluate to exactly zero (not NaN and not an
error). -/
theorem novelty_diversity_single_item (train reco : List (Nat × Nat)) (c : Nat)
    (htne : train ≠ []) (_hrne : reco ≠ [])
    (htc : ∀ r ∈ train, r.2 = c) (hrc : ∀ r ∈ reco, r.2 = c)
    (hnodup : reco.Nodup) :
    novelty train reco = 0 ∧ diversity train reco = 0 := by
  constructor
  · unfold novelty
    have hz : ((itemsOf reco).map (item_novelty train)).sum = 0 := by
      apply List.sum_eq_zero
      intro x hx
      obtain ⟨i, hi, rfl⟩ := List.mem_map.1 hx
      obtain ⟨r, hr, rfl⟩ := List.mem_map.1 hi
      rw [hrc r hr]
      exact item_novelty_single train c htne htc
    rw [hz, zero_div]
  · have hus : includedUsers reco = [] := by
      rw [includedUsers, List.filter_eq_nil_iff]
      intro u hu hdec
      have h2 : 2 ≤ (userRecoItems reco u).length := by simpa using hdec
      have hrows_nodup : (reco.filter (fun r => decide (r.1 = u))).Nodup :=
        List.Nodup.sublist (List.filter_sublist reco) hnodup
      have hrows_const : ∀ x ∈ reco.filter (fun r => decide (r.1 = u)), x = (u, c) := by
        intro x hx
        have hx2 := List.mem_filter.1 hx
        have h1 : x.1 = u := by simpa using hx2.2
        have h2x : x.2 = c := hrc x hx2.1
        exact Prod.ext h1 h2x
      have hlen1 : (reco.filter (fun r => decide (r.1 = u))).length ≤ 1 :=
        length_le_one_of_nodup_const _ (u, c) hrows_nodup hrows_const
      have hle : (userRecoItems reco u).length ≤ 1 := by
        rw [userRecoItems, List.length_map]
        exact hlen1
      omega
    rw [diversity, hus]
    simp

/-- C5 witness: single-item training and recommendation tables. -/
theorem novelty_diversity_single_item_witness :
    (([(1, 3), (2, 3)] : List (Nat × Nat)) ≠ []) ∧
    (([(1, 3), (2, 3)] : List (Nat × Nat)) ≠ []) ∧
    (∀ r ∈ ([(1, 3), (2, 3)] : List (Nat × Nat)), r.2 = 3) ∧
    (∀ r ∈ ([(1, 3), (2, 3)] : List (Nat × Nat)), r.2 = 3) ∧
    (([(1, 3), (2, 3)] : List (Nat × Nat)).Nodup) ∧
    (novelty ([(1, 3), (2, 3)] : List (Nat × Nat)) ([(1, 3), (2, 3)] : List (Nat × Nat)) = 0 ∧
      diversity ([(1, 3), (2, 3)] : List (Nat × Nat))
        ([(1, 3), (2, 3)] : List (Nat × Nat)) = 0) :=
  ⟨by decide, by decide, by decide, by decide, by decide,
    novelty_diversity_single_item _ _ 3 (by decide) (by decide) (by decide) (by decide)
      (by decide)⟩

end Recommenders

namespace Recommenders

theorem entropy_term_nonpos {reco : List (Nat × Nat)} {i : Nat}
    (hi : i ∈ (itemsOf reco).toFinset) :
    ((countItem reco i : ℝ) / (reco.length : ℝ))
      * Real.logb 2 ((countItem reco i : ℝ) / (reco.length : ℝ)) ≤ 0 := by
  obtain ⟨hpos, hle⟩ := ratio_mem_pos_le_one (List.mem_toFinset.1 hi)
  have hlog := Real.logb_nonpos (b := 2) (by norm_num) hpos.le hle
  exact mul_nonpos_iff.2 (Or.inl ⟨hpos.le, hlog⟩)

/-- C7: catalog coverage lies in [0, 1] when every recommended item comes
from the training catalog, and distributional coverage, the raw Shannon
entropy in bits of the recommendation-frequency distribution, is
nonnegative and zero only when every recommendation is of the same
single item. -/
theorem coverage_bounds (train reco : List (Nat × Nat))
    (hsub : ∀ r ∈ reco, r.2 ∈ itemsOf train) :
    (0 ≤ catalog_coverage train reco ∧ catalog_coverage train reco ≤ 1) ∧
    0 ≤ distributional_coverage reco ∧
    (distributional_coverage reco = 0 → ∀ r ∈ reco, ∀ s ∈ reco, r.2 = s.2) := by
  refine ⟨⟨?_, ?_⟩, ?_, ?_⟩
  · exact div_nonneg (Nat.cast_nonneg _) (Nat.cast_nonneg _)
  · by_cases hr : reco = []
    · subst hr
      simp [catalog_coverage, itemsOf]
    · obtain ⟨r0, hr0⟩ := List.exists_mem_of_ne_nil reco hr
      have hfsub : (itemsOf reco).toFinset ⊆ (itemsOf train).toFinset := by
        intro i hiF
        obtain ⟨s, hs, rfl⟩ := List.mem_map.1 (List.mem_toFinset.1 hiF)
        exact List.mem_toFinset.2 (hsub s hs)
      have hden : 0 < (itemsOf train).toFinset.card := by
        apply Finset.card_pos.2
        exact ⟨r0.2, List.mem_toFinset.2 (hsub r0 hr0)⟩
      rw [catalog_coverage, div_le_one (by exact_mod_cast hden)]
      exact_mod_cast Finset.card_le_card hfsub
  · unfold distributional_coverage
    have hsum : (∑ i ∈ (itemsOf reco).toFinset,
        ((countItem reco i : ℝ) / (reco.length : ℝ))
          * Real.logb 2 ((countItem reco i : ℝ) / (reco.length : ℝ))) ≤ 0 :=
      Finset.sum_nonpos (fun i hi => entropy_term_nonpos hi)
    linarith
  · intro h0 r hr s hs
    unfold distributional_coverage at h0
    have hsum0 := neg_eq_zero.1 h0
    have hmemr : r.2 ∈ itemsOf reco := List.mem_map.2 ⟨r, hr, rfl⟩
    have hterm := (Finset.sum_eq_zero_iff_of_nonpos
        (fun i hi => entropy_term_nonpos hi)).1 hsum0 r.2 (List.mem_toFinset.2 hmemr)
    obtain ⟨hpos, hle⟩ := ratio_mem_pos_le_one hmemr
    rcases mul_eq_zero.1 hterm with hc | hlog
    · exact absurd hc (ne_of_gt hpos)
    · have hp1 := Real.eq_one_of_pos_of_logb_eq_zero (b := 2) (by norm_num) hpos hlog
      have hall := (ratio_eq_one_iff hmemr).1 hp1
      exact hall s.2 (List.mem_map.2 ⟨s, hs, rfl⟩)

/-- C7 witness: the coverage bounds at a concrete pair of tables whose
recommendations draw from the training catalog. -/
theorem coverage_bounds_witness :
    (∀ r ∈ ([(1, 1), (2, 3)] : List (Nat × Nat)),
        r.2 ∈ itemsOf ([(1, 1), (1, 2), (2, 3)] : List (Nat × Nat))) ∧
    ((0 ≤ catalog_coverage ([(1, 1), (1, 2), (2, 3)] : List (Nat × Nat))
          ([(1, 1), (2, 3)] : List (Nat × Nat)) ∧
        catalog_coverage ([(1, 1), (1, 2), (2, 3)] : List (Nat × Nat))
          ([(1, 1), (2, 3)] : List (Nat × Nat)) ≤ 1) ∧
      0 ≤ distributional_coverage ([(1, 1), (2, 3)] : List (Nat × Nat)) ∧
      (distributional_coverage ([(1, 1), (2, 3)] : List (Nat × Nat)) = 0 →
        ∀ r ∈ ([(1, 1), (2, 3)] : List (Nat × Nat)),
          ∀ s ∈ ([(1, 1), (2, 3)] : List (Nat × Nat)), r.2 = s.2)) :=
  ⟨by decide, coverage_bounds _ _ (by decide)⟩

end Recommenders

namespace Recommenders

/-- C8: a truth or prediction table containing two rows with the same
(user, item) pair is rejected at evaluator construction with a
validation error (under an otherwise valid configuration); no
deduplicated evaluator and no metric value is ever produced for it. -/
theorem duplicate_pairs_rejected (truth pred : List Rating) (cfg : RawRankCfg)
    (hk : 1 ≤ cfg.k)
    (hth : cfg.method = RelMethod.by_threshold → cfg.threshold.isFinite = true)
    (hdup : hasDupPairs truth = true ∨ hasDupPairs pred = true) :
    ∃ msg, mkRankingEvaluator truth pred cfg = .error (.validationError msg) := by
  unfold mkRankingEvaluator
  rw [if_neg (by omega : ¬cfg.k < 1)]
  have hcond : ¬(cfg.method = RelMethod.by_threshold ∧ cfg.threshold.isFinite = false) := by
    rintro ⟨h1, h2⟩
    rw [hth h1] at h2
    cases h2
  rw [if_neg hcond]
  rcases hdup with h | h
  · rw [if_pos h]
    exact ⟨_, rfl⟩
  · by_cases h1 : hasDupPairs truth = true
    · rw [if_pos h1]
      exact ⟨_, rfl⟩
    · rw [if_neg h1, if_pos h]
      exact ⟨_, rfl⟩

/-- C8 witness: a truth table with a duplicated (user, item) pair is
rejected with a validation error. -/
theorem duplicate_pairs_rejected_witness :
    1 ≤ (⟨10, RelMethod.top_k, FloatArg.finite 0⟩ : RawRankCfg).k ∧
    ((⟨10, RelMethod.top_k, FloatArg.finite 0⟩ : RawRankCfg).method
        = RelMethod.by_threshold →
      (⟨10, RelMethod.top_k, FloatArg.finite 0⟩ : RawRankCfg).threshold.isFinite = true) ∧
    (hasDupPairs ([⟨1, 1, 5⟩, ⟨1, 1, 4⟩] : List Rating) = true ∨
      hasDupPairs ([] : List Rating) = true) ∧
    (∃ msg, mkRankingEvaluator ([⟨1, 1, 5⟩, ⟨1, 1, 4⟩] : List Rating) []
        ⟨10, RelMethod.top_k, FloatArg.finite 0⟩ = .error (.validationError msg)) :=
  ⟨by decide, by decide, by decide,
    duplicate_pairs_rejected _ _ _ (by decide) (by decide) (by decide)⟩

/-- C9: for a configuration with k below 1, or with the by-threshold
policy and a non-finite threshold, construction raises a configuration
error eagerly; and metric access on a successfully constructed evaluator
never yields a configuration error. -/
theorem configuration_errors_eager (truth pred : List Rating) (cfg : RawRankCfg) :
    (cfg.k < 1 →
      mkRankingEvaluator truth pred cfg
        = .error (.configurationError "k must be at least 1")) ∧
    (1 ≤ cfg.k → cfg.method = RelMethod.by_threshold → cfg.threshold.isFinite = false →
      mkRankingEvaluator truth pred cfg
        = .error (.configurationError "threshold must be finite")) ∧
    (∀ e : RankingEvaluator, mkRankingEvaluator truth pred cfg = .ok e →
      ∀ (m : RankMetric) (msg : String),
        accessMetric e m ≠ .error (.configurationError msg)) := by
  refine ⟨?_, ?_, ?_⟩
  · intro hk
    unfold mkRankingEvaluator
    rw [if_pos hk]
  · intro hk hm hth
    unfold mkRankingEvaluator
    rw [if_neg (by omega : ¬cfg.k < 1), if_pos ⟨hm, hth⟩]
  · intro e _ m msg hc
    unfold accessMetric at hc
    cases hc

/-- C9 witness: a k of 0 is rejected, a by-threshold NaN threshold is
rejected, and an evaluator built from a valid configuration answers
every metric access without a configuration error. -/
theorem configuration_errors_eager_witness :
    ((⟨0, RelMethod.top_k, FloatArg.finite 0⟩ : RawRankCfg).k < 1 ∧
      mkRankingEvaluator ([] : List Rating) [] ⟨0, RelMethod.top_k, FloatArg.finite 0⟩
        = .error (.configurationError "k must be at least 1")) ∧
    (1 ≤ (⟨10, RelMethod.by_threshold, FloatArg.nan⟩ : RawRankCfg).k ∧
      mkRankingEvaluator ([] : List Rating) [] ⟨10, RelMethod.by_threshold, FloatArg.nan⟩
        = .error (.configurationError "threshold must be finite")) ∧
    (mkRankingEvaluator ([] : List Rating) [] ⟨10, RelMethod.top_k, FloatArg.finite 0⟩
        = .ok ⟨[], [], ⟨10, RelMethod.top_k, 0⟩⟩ ∧
      ∀ (m : RankMetric) (msg : String),
        accessMetric ⟨[], [], ⟨10, RelMethod.top_k, 0⟩⟩ m
          ≠ .error (.configurationError msg)) :=
  ⟨⟨by decide, (configuration_errors_eager [] [] _).1 (by decide)⟩,
    ⟨by decide, (configuration_errors_eager [] [] _).2.1 (by decide) rfl rfl⟩,
    ⟨rfl, fun m msg =>
      (configuration_errors_eager ([] : List Rating) []
          ⟨10, RelMethod.top_k, FloatArg.finite 0⟩).2.2
        ⟨[], [], ⟨10, RelMethod.top_k, 0⟩⟩ rfl m msg⟩⟩

end Recommenders

namespace Recommenders

theorem sum_map_div (l : List ℚ) (s : ℚ) :
    (l.map (fun x => x / s)).sum = l.sum / s := by
  induction l with
  | nil => simp
  | cons a as ih => simp [ih, add_div]

/-- C10 counterexample: the empty ratio list is entrywise positive
(vacuously) and its sum 0 differs from 1, yet the constructor accepts it
and stores the empty list as the normalized ratio, and the entries of
that stored list sum to 0, not to 1. -/
theorem randomSplitter_empty_list_refuted :
    (∀ x ∈ ([] : List ℚ), 0 < x) ∧
    (([] : List ℚ).sum ≠ 1) ∧
    RandomSplitter.init (.list []) 123
      = .ok ⟨.list [], true, .list [], 123⟩ := by
  refine ⟨by simp, by norm_num, ?_⟩
  norm_num [RandomSplitter.init]

/-- C10 amended: translated RandomSplitter constructor behaviour; a float
ratio at most 0 or at least 1 raises a ValueError, a ratio list with a
non-positive entry raises a ValueError, a ratio that is neither a float
nor a list raises a TypeError, and every non-empty entrywise-positive
ratio list is stored (rescaled when its sum differs from 1) as a list
whose entries sum to 1. -/
theorem randomSplitter_init_spec (r : ℚ) (l : List ℚ) (seed : ℤ) :
    ((r ≤ 0 ∨ 1 ≤ r) →
      RandomSplitter.init (.float r) seed
        = .valueError "Split ratio has to be between 0 and 1") ∧
    ((∃ x ∈ l, x ≤ 0) →
      RandomSplitter.init (.list l) seed
        = .valueError "All split ratios in the ratio list should be larger than 0.") ∧
    (RandomSplitter.init .other seed
      = .typeError "Split ratio should be either float or a list of floats.") ∧
    (l ≠ [] → (∀ x ∈ l, 0 < x) →
      ∃ l2, RandomSplitter.init (.list l) seed = .ok ⟨.list l, true, .list l2, seed⟩ ∧
        l2.sum = 1) := by
  refine ⟨?_, ?_, rfl, ?_⟩
  · intro h
    simp only [RandomSplitter.init]
    rw [if_pos h]
  · intro h
    simp only [RandomSplitter.init]
    have hany : l.any (fun x => decide (x ≤ 0)) = true := by
      rw [List.any_eq_true]
      obtain ⟨x, hx, hx0⟩ := h
      exact ⟨x, hx, by simpa using hx0⟩
    rw [if_pos hany]
  · intro hne hpos
    simp only [RandomSplitter.init]
    have hany : l.any (fun x => decide (x ≤ 0)) = false := by
      rw [List.any_eq_false]
      intro x hx
      simpa using not_le.2 (hpos x hx)
    rw [if_neg (by rw [hany]; exact Bool.false_ne_true)]
    by_cases hsum : l.sum = 1
    · refine ⟨l, ?_, hsum⟩
      rw [if_neg (not_not.2 hsum)]
    · refine ⟨l.map (fun x => x / l.sum), ?_, ?_⟩
      · rw [if_pos hsum]
      · rw [sum_map_div, div_self (ne_of_gt (List.sum_pos l hpos hne))]

/-- C10 witness: a float ratio of 2 is rejected, and the all-positive
list [2, 2] with sum 4 is stored rescaled to sum 1. -/
theorem randomSplitter_init_spec_witness :
    (((2 : ℚ) ≤ 0 ∨ (1 : ℚ) ≤ 2) ∧
      RandomSplitter.init (.float 2) 123
        = .valueError "Split ratio has to be between 0 and 1") ∧
    (([(2 : ℚ), 2] ≠ []) ∧ (∀ x ∈ [(2 : ℚ), 2], 0 < x) ∧
      ∃ l2, RandomSplitter.init (.list [(2 : ℚ), 2]) 123
          = .ok ⟨.list [(2 : ℚ), 2], true, .list l2, 123⟩ ∧ l2.sum = 1) :=
  ⟨⟨Or.inr (by norm_num),
      (randomSplitter_init_spec 2 [2, 2] 123).1 (Or.inr (by norm_num))⟩,
    ⟨by simp, by norm_num,
      (randomSplitter_init_spec 2 [2, 2] 123).2.2.2 (by simp) (by norm_num)⟩⟩

end Recommenders
